import Mathlib

/-!
Shallow embedding of the cloudwatch log-stream writer (writer.go of this
repository): the line-splitting event batcher (`Writer.buffer`), the
append path with its conflict handling (`Writer.flush`, `Writer.putLogEvents`),
the public façade (`Writer.Write`, `Writer.Flush`, `Writer.Close`) and the
background flush-scheduler loop (`Writer.startRun`).

Modelling conventions:
* Byte slices are `List Char` with `'\x0a'` as the line delimiter; a log
  message is the `String` built from the bytes of its line.
* The AWS client is a deterministic test double `Client`: a function from
  the attempt index within one flush (0 = first attempt, 1 = retry) and the
  call arguments to a result.  `Except.ok tok` models a `PutLogEventsOutput`
  whose `NextSequenceToken` is `tok` (a `*string`, hence `Option String`);
  `Except.error e` models a non-nil Go `error`.
* Every method that can reach the network also returns the list of remote
  calls it performed (`List ApiCall`), so that claims about which calls are
  made (retry counts, absence of metadata lookups) are statable.
* `now()` (a stubable package variable in the source) is modelled by a
  clock `Nat → Int` indexed by the number of events already buffered.
-/

namespace Cloudwatch

/-- Limit constants from writer.go.  In the source they are declared
(`perEventBytes`, `maximumBytesPerPut`, `maximumLogEventsPerPut`,
`maximumBytesPerEvent`) with comments citing the AWS PutLogEvents limits. -/
def perEventBytes : Nat := 26

/-- writer.go: `maximumBytesPerPut = 1048576`. -/
def maximumBytesPerPut : Nat := 1048576

/-- writer.go: `maximumLogEventsPerPut = 10000`. -/
def maximumLogEventsPerPut : Nat := 10000

/-- writer.go: `maximumBytesPerEvent = 262144 - perEventBytes`. -/
def maximumBytesPerEvent : Nat := 262144 - perEventBytes

/-- writer.go: `dataAlreadyAcceptedCode = "DataAlreadyAcceptedException"`. -/
def dataAlreadyAcceptedCode : String := "DataAlreadyAcceptedException"

/-- writer.go: `invalidSequenceTokenCode = "InvalidSequenceTokenException"`. -/
def invalidSequenceTokenCode : String := "InvalidSequenceTokenException"

/-- `cloudwatchlogs.InputLogEvent`: message plus millisecond timestamp. -/
structure InputLogEvent where
  message : String
  timestamp : Int
  deriving Repr, DecidableEq

/-- A Go `error` as the writer observes it: either an `awserr.Error`
(carrying `Code()` and `Message()`), or any other error (carrying only its
text).  The type switch `err.(awserr.Error)` in flush corresponds to
matching on the constructor. -/
inductive GoError where
  | awsErr (code : String) (message : String)
  | generic (message : String)
  deriving Repr, DecidableEq

/-- `io.ErrClosedPipe`, returned by `Write` after `Close`. -/
def errClosedPipe : GoError := .generic "io: read/write on closed pipe"

/-- One remote call made by the writer.  The current writer only ever
issues `PutLogEvents`; `describeLogStreams` is included so that the absence
of a stream-metadata lookup is statable about a call trace. -/
inductive ApiCall where
  | putLogEvents (g : String) (s : String) (events : List InputLogEvent)
      (sequenceToken : Option String)
  | describeLogStreams (g : String) (s : String)
  deriving Repr, DecidableEq

/-- Whether a call is a `PutLogEvents` call. -/
def ApiCall.isPut : ApiCall → Bool
  | .putLogEvents _ _ _ _ => true
  | .describeLogStreams _ _ => false

/-- The event batch carried by a call (empty for a metadata lookup). -/
def ApiCall.callEvents : ApiCall → List InputLogEvent
  | .putLogEvents _ _ evs _ => evs
  | .describeLogStreams _ _ => []

/-- The sequence token carried by a `PutLogEvents` call. -/
def ApiCall.callToken : ApiCall → Option String
  | .putLogEvents _ _ _ tok => tok
  | .describeLogStreams _ _ => none

/-- The deterministic double for `cloudwatchlogsiface.CloudWatchLogsAPI` as
used by one flush: `put i events token` is the outcome of the `PutLogEvents`
call with the given arguments, where `i` is the attempt index within the
flush (`0` for the first attempt, `1` for the conflict retry). -/
structure Client where
  put : Nat → List InputLogEvent → Option String → Except GoError (Option String)

/-- The `Writer` struct of writer.go.  `events` is the `eventsBuffer`
contents (its mutex is irrelevant in this sequential model); `err` is the
sticky error field; `sequenceToken` the held token (`*string`). -/
structure Writer where
  group : String
  stream : String
  sequenceToken : Option String
  closed : Bool
  err : Option GoError
  events : List InputLogEvent
  deriving Repr, DecidableEq

/-- `NewWriter`: fresh open writer with empty buffer, no token, no error. -/
def NewWriter (group stream : String) : Writer :=
  { group := group, stream := stream, sequenceToken := none,
    closed := false, err := none, events := [] }

/-- The chunk sequence produced by the `buffer` loop of writer.go: repeated
`bufio.ReadBytes('\x0a')` on the input, keeping the delimiter in each chunk;
the final zero-length read at EOF (after a trailing delimiter) is skipped by
the `len(b) == 0` check, and a `bytes.Reader` never yields an error other
than `io.EOF`, so the `break` branch is unreachable. -/
def chunksNl : List Char → List (List Char)
  | [] => []
  | c :: cs =>
    if c = '\n' then ['\n'] :: chunksNl cs
    else
      match chunksNl cs with
      | [] => [[c]]
      | chunk :: rest => (c :: chunk) :: rest

/-- Build the `InputLogEvent`s for a list of chunks: writer.go sets
`Message: aws.String(string(b))` and `Timestamp: now().UnixNano()/1000000`;
`now()` is called once per event, modelled by `clock` applied to successive
indices starting at `i`. -/
def mkEvents (clock : Nat → Int) : Nat → List (List Char) → List InputLogEvent
  | _, [] => []
  | i, chunk :: rest =>
    { message := String.mk chunk, timestamp := clock i } :: mkEvents clock (i + 1) rest

/-- `Writer.buffer` of writer.go: split `b` into line chunks, append one
event per chunk to the events buffer (`eventsBuffer.add`), count the bytes
consumed, and return `(n, nil)`.  No remote call is made. -/
def Writer.buffer (w : Writer) (clock : Nat → Int) (b : List Char) :
    Writer × Nat × Option GoError :=
  ({ w with events := w.events ++ mkEvents clock w.events.length (chunksNl b) },
   ((chunksNl b).map List.length).sum, none)

/-- `Writer.Write` of writer.go: reject with `io.ErrClosedPipe` when closed,
with the stored sticky error when failed, otherwise buffer the bytes.  The
trailing `List ApiCall` records the remote calls made: `Write` never touches
the client, so it is `[]` on every path. -/
def Writer.Write (w : Writer) (clock : Nat → Int) (b : List Char) :
    Writer × Nat × Option GoError × List ApiCall :=
  if w.closed then (w, 0, some errClosedPipe, [])
  else
    match w.err with
    | some e => (w, 0, some e, [])
    | none =>
      let r := w.buffer clock b
      (r.1, r.2.1, r.2.2, [])

/-- `strings.Split` with a one-character separator: split around every
occurrence of `sep`, keeping empty parts; the result is never empty. -/
def splitOnChar (sep : Char) : List Char → List (List Char)
  | [] => [[]]
  | c :: cs =>
    match splitOnChar sep cs with
    | [] => [[]]
    | part :: parts =>
      if c = sep then [] :: part :: parts
      else (c :: part) :: parts

/-- `parts := strings.Split(message, " "); parts[len(parts)-1]` — the token
extraction flush applies to a conflict error's message.  `strings.Split`
always returns at least one part, so the default of `getLastD` is never
used. -/
def lastMessagePart (message : String) : String :=
  String.mk ((splitOnChar ' ' message.toList).getLastD [])

/-- `Writer.putLogEvents` of writer.go: one remote `PutLogEvents` call with
the given batch and token.  Returns `(resp.NextSequenceToken, nil)` on
success and `(nil, err)` on failure (the named return `nextSequenceToken`
stays nil when `err != nil`); the `FallbackLogger` calls only log.  `i` is
the attempt index used to query the client double.  The performed call is
returned alongside. -/
def Writer.putLogEvents (w : Writer) (c : Client) (i : Nat)
    (events : List InputLogEvent) (sequenceToken : Option String) :
    (Option String × Option GoError) × ApiCall :=
  (match c.put i events sequenceToken with
   | .ok tok => (tok, none)
   | .error e => (none, some e),
   ApiCall.putLogEvents w.group w.stream events sequenceToken)

/-- The lower-case `Writer.flush` of writer.go: first append with the held
token; on `DataAlreadyAcceptedException` adopt the token carried in the
error message and clear the error; on `InvalidSequenceTokenException` retry
exactly once with the token carried in the error message; then
`if err != nil { w.err = err } else { w.sequenceToken = nextSequenceToken }`. -/
def Writer.flush (w : Writer) (c : Client) (events : List InputLogEvent) :
    Writer × List ApiCall :=
  let r1 := w.putLogEvents c 0 events w.sequenceToken
  match r1.1.2 with
  | none => ({ w with sequenceToken := r1.1.1 }, [r1.2])
  | some e =>
    match e with
    | .awsErr code message =>
      if code = dataAlreadyAcceptedCode then
        ({ w with sequenceToken := some (lastMessagePart message) }, [r1.2])
      else if code = invalidSequenceTokenCode then
        let token := lastMessagePart message
        let r2 := w.putLogEvents c 1 events (some token)
        match r2.1.2 with
        | none => ({ w with sequenceToken := r2.1.1 }, [r1.2, r2.2])
        | some e2 => ({ w with err := some e2 }, [r1.2, r2.2])
      else ({ w with err := some e }, [r1.2])
    | .generic m => ({ w with err := some (.generic m) }, [r1.2])

/-- The public `Writer.Flush` of writer.go: drain the events buffer
atomically (`eventsBuffer.drain`), return immediately when it was empty,
otherwise run the inner flush on the drained batch.  The Go function has no
return value; only the call trace is reported alongside the new state. -/
def Writer.Flush (w : Writer) (c : Client) : Writer × List ApiCall :=
  let events := w.events
  let w' := { w with events := [] }
  if events.length = 0 then (w', [])
  else w'.flush c events

/-- `Writer.Close` of writer.go: set `closed`, then flush the remaining
buffer.  No return value. -/
def Writer.Close (w : Writer) (c : Client) : Writer × List ApiCall :=
  Writer.Flush { w with closed := true } c

/-- Observation of the scheduler loop after consuming a list of ticks. -/
inductive LoopStatus where
  | exited (w : Writer)
  | running (w : Writer)
  deriving Repr, DecidableEq

/-- The `Writer.start` loop of writer.go, run over a schedule of ticks:
each loop iteration first checks `w.closed` and returns when it is set;
otherwise it receives a tick from `flushTicker` and calls `w.Flush()`,
discarding any error.  `cs` supplies the remote behaviour for each tick's
flush; when the schedule is exhausted the loop is still running (blocked on
the ticker) unless the writer is closed. -/
def Writer.startRun (w : Writer) : List Client → LoopStatus
  | [] => if w.closed then .exited w else .running w
  | c :: cs => if w.closed then .exited w else Writer.startRun (w.Flush c).1 cs

/-- A sequence of `Write` calls (the multi-call batching scenario). -/
def writeAll (w : Writer) (clock : Nat → Int) : List (List Char) → Writer
  | [] => w
  | b :: bs => writeAll (w.Write clock b).1 clock bs

/-- Whether an error is one of the two append-conflict classes flush
resolves (`DataAlreadyAcceptedException` / `InvalidSequenceTokenException`). -/
def GoError.isConflict : GoError → Bool
  | .awsErr code _ =>
      code == dataAlreadyAcceptedCode || code == invalidSequenceTokenCode
  | .generic _ => false

/-! Concrete scenario doubles used by counterexamples and witnesses. -/

/-- An identity clock for concrete scenarios. -/
def clk0 : Nat → Int := fun i => Int.ofNat i

/-- A client whose every append succeeds with next token `"NEXT"`. -/
def okClient : Client := ⟨fun _ _ _ => .ok (some "NEXT")⟩

/-- A client whose every append fails with a transport error. -/
def failClient : Client := ⟨fun _ _ _ => .error (.generic "transport failure")⟩

/-- A client whose first append attempt reports a stale sequence token
carrying token `"TTT"` and whose retry succeeds with token `"RETRYTOK"`. -/
def staleClient : Client :=
  ⟨fun i _ _ =>
    if i = 0 then
      .error (.awsErr invalidSequenceTokenCode "expected sequenceToken is: TTT")
    else .ok (some "RETRYTOK")⟩

/-- A client whose appends report the batch as already accepted, carrying
token `"DDD"`. -/
def dupClient : Client :=
  ⟨fun _ _ _ =>
    .error (.awsErr dataAlreadyAcceptedCode "already accepted with sequenceToken: DDD")⟩

/-- A writer holding one buffered event and no sequence token. -/
def oneEventWriter : Writer :=
  { NewWriter "g" "s" with events := [{ message := "x\n", timestamp := 0 }] }

/-- A drained batch of 10001 events, one over `maximumLogEventsPerPut`. -/
def oversizedBatch : List InputLogEvent :=
  List.replicate 10001 { message := "x", timestamp := 0 }

/-- A writer whose buffer holds 10001 events. -/
def oversizedWriter : Writer := { NewWriter "g" "s" with events := oversizedBatch }

/-- The writer after a flush whose append failed with a transport error:
the sticky failed state used in the persistent-error scenarios. -/
def failedWriter : Writer := (oneEventWriter.Flush failClient).1

/-! Helper lemmas about the event batcher. -/

/-- Splitting a nonempty input yields at least one chunk. -/
theorem chunksNl_cons_ne_nil (c : Char) (cs : List Char) : chunksNl (c :: cs) ≠ [] := by
  unfold chunksNl
  split
  · simp
  · split <;> simp

/-- Chunking past a leading newline. -/
theorem chunksNl_cons_newline (l : List Char) :
    chunksNl ('\n' :: l) = ['\n'] :: chunksNl l := by
  simp [chunksNl]

/-- Chunking past a leading non-delimiter byte with a nonempty tail split. -/
theorem chunksNl_cons_other (c : Char) (l : List Char) (hc : c ≠ '\n')
    (chunk : List Char) (rest : List (List Char)) (hl : chunksNl l = chunk :: rest) :
    chunksNl (c :: l) = (c :: chunk) :: rest := by
  unfold chunksNl
  rw [if_neg hc, hl]

/-- The byte count accumulated by the buffer loop is the whole input. -/
theorem chunksNl_length_sum (b : List Char) :
    ((chunksNl b).map List.length).sum = b.length := by
  induction b with
  | nil => rfl
  | cons c cs ih =>
    by_cases h : c = '\n'
    · subst h
      rw [chunksNl_cons_newline]
      simp only [List.map_cons, List.sum_cons, List.length_cons, List.length_nil, ih]
      omega
    · cases hcs : chunksNl cs with
      | nil =>
        cases cs with
        | nil => simp [chunksNl, h]
        | cons d ds => exact absurd hcs (chunksNl_cons_ne_nil d ds)
      | cons chunk rest =>
        rw [chunksNl_cons_other c cs h chunk rest hcs]
        rw [hcs] at ih
        simp only [List.map_cons, List.sum_cons, List.length_cons] at ih ⊢
        omega

/-- An input of `n` bare newlines splits into `n` newline chunks. -/
theorem chunksNl_newlines (n : Nat) :
    chunksNl (List.replicate n '\n') = List.replicate n ['\n'] := by
  induction n with
  | zero => rfl
  | succ m ih => simp [List.replicate_succ, chunksNl, ih]

/-- Chunking distributes over concatenation when the first part ends at a
line boundary. -/
theorem chunksNl_append (b1 b2 : List Char) (h : b1.getLast? = some '\n') :
    chunksNl (b1 ++ b2) = chunksNl b1 ++ chunksNl b2 := by
  induction b1 with
  | nil => simp at h
  | cons c cs ih =>
    cases cs with
    | nil =>
      simp at h
      subst h
      rw [List.singleton_append, chunksNl_cons_newline]
      rfl
    | cons d ds =>
      rw [List.getLast?_cons_cons] at h
      have ih' := ih h
      by_cases hc : c = '\n'
      · subst hc
        rw [show ('\n' :: d :: ds) ++ b2 = '\n' :: ((d :: ds) ++ b2) from rfl]
        rw [chunksNl_cons_newline, chunksNl_cons_newline, ih']
        rfl
      · cases hcs : chunksNl (d :: ds) with
        | nil => exact absurd hcs (chunksNl_cons_ne_nil d ds)
        | cons chunk rest =>
          have h1 : chunksNl ((d :: ds) ++ b2) = chunk :: (rest ++ chunksNl b2) := by
            rw [ih', hcs]
            rfl
          rw [show (c :: d :: ds) ++ b2 = c :: ((d :: ds) ++ b2) from rfl]
          rw [chunksNl_cons_other c _ hc _ _ h1, chunksNl_cons_other c _ hc _ _ hcs]
          rfl

/-- `mkEvents` produces one event per chunk. -/
theorem mkEvents_length (clock : Nat → Int) (i : Nat) (xs : List (List Char)) :
    (mkEvents clock i xs).length = xs.length := by
  induction xs generalizing i with
  | nil => rfl
  | cons x xs ih => simp [mkEvents, ih]

/-- `mkEvents` over a concatenation of chunk lists. -/
theorem mkEvents_append (clock : Nat → Int) (i : Nat) (xs ys : List (List Char)) :
    mkEvents clock i (xs ++ ys) = mkEvents clock i xs ++ mkEvents clock (i + xs.length) ys := by
  induction xs generalizing i with
  | nil => simp [mkEvents]
  | cons x xs ih =>
    rw [List.cons_append]
    simp only [mkEvents, ih, List.length_cons, List.cons_append]
    have hix : i + 1 + xs.length = i + (xs.length + 1) := by omega
    rw [hix]

/-- The messages of the produced events are exactly the chunks. -/
theorem mkEvents_messages (clock : Nat → Int) (i : Nat) (xs : List (List Char)) :
    (mkEvents clock i xs).map InputLogEvent.message = xs.map String.mk := by
  induction xs generalizing i with
  | nil => rfl
  | cons x xs ih => simp [mkEvents, ih]

/-! Helper lemmas about the flush path. -/

/-- The two conflict codes are distinct strings. -/
theorem codes_ne : invalidSequenceTokenCode ≠ dataAlreadyAcceptedCode := by decide

/-- The inner flush only ever updates `sequenceToken` or `err`: the
identity, buffer contents, and closed flag are untouched. -/
theorem flush_preserves (w : Writer) (c : Client) (evs : List InputLogEvent) :
    ((w.flush c evs).1).closed = w.closed ∧ ((w.flush c evs).1).events = w.events ∧
    ((w.flush c evs).1).group = w.group ∧ ((w.flush c evs).1).stream = w.stream := by
  unfold Writer.flush Writer.putLogEvents
  cases hp0 : c.put 0 evs w.sequenceToken with
  | ok tok => simp
  | error e =>
    cases e with
    | awsErr code msg =>
      by_cases h1 : code = dataAlreadyAcceptedCode
      · simp [h1]
      · by_cases h2 : code = invalidSequenceTokenCode
        · cases hp1 : c.put 1 evs (some (lastMessagePart msg)) <;>
            simp [h1, h2, hp1, codes_ne]
        · simp [h1, h2]
    | generic m => simp

/-- Every run of the inner flush issues either exactly one append (carrying
the drained batch and the held token) or exactly two (the retry carrying
some substituted token); nothing else is ever called. -/
theorem flush_trace_shape (w : Writer) (c : Client) (evs : List InputLogEvent) :
    (w.flush c evs).2 = [ApiCall.putLogEvents w.group w.stream evs w.sequenceToken] ∨
    ∃ tok, (w.flush c evs).2 =
      [ApiCall.putLogEvents w.group w.stream evs w.sequenceToken,
       ApiCall.putLogEvents w.group w.stream evs (some tok)] := by
  unfold Writer.flush Writer.putLogEvents
  cases hp0 : c.put 0 evs w.sequenceToken with
  | ok tok => left; simp
  | error e =>
    cases e with
    | awsErr code msg =>
      by_cases h1 : code = dataAlreadyAcceptedCode
      · left; simp [h1]
      · by_cases h2 : code = invalidSequenceTokenCode
        · right
          refine ⟨lastMessagePart msg, ?_⟩
          cases hp1 : c.put 1 evs (some (lastMessagePart msg)) <;>
            simp [h1, h2, hp1, codes_ne]
        · left; simp [h1, h2]
    | generic m => left; simp

/-- `Flush` on an empty buffer is a no-op without remote calls. -/
theorem Flush_empty (w : Writer) (c : Client) (h : w.events = []) :
    w.Flush c = (w, []) := by
  have hw : { w with events := ([] : List InputLogEvent) } = w := by
    rw [← h]
  unfold Writer.Flush
  rw [h]
  simp [hw]

/-- `Flush` always leaves the buffer drained. -/
theorem Flush_drains (w : Writer) (c : Client) : ((w.Flush c).1).events = [] := by
  unfold Writer.Flush
  by_cases h : w.events.length = 0
  · simp [h]
  · simpa [h] using (flush_preserves { w with events := [] } c w.events).2.1

/-- `Flush` never changes the closed flag. -/
theorem Flush_closed (w : Writer) (c : Client) : ((w.Flush c).1).closed = w.closed := by
  unfold Writer.Flush
  by_cases h : w.events.length = 0
  · simp [h]
  · simpa [h] using (flush_preserves { w with events := [] } c w.events).1

/-- Every remote call a `Flush` makes is an append carrying the entire
drained buffer. -/
theorem Flush_calls (w : Writer) (c : Client) :
    ∀ call ∈ (w.Flush c).2, call.isPut = true ∧ call.callEvents = w.events := by
  intro call hcall
  unfold Writer.Flush at hcall
  by_cases h : w.events.length = 0
  · simp [h] at hcall
  · rw [if_neg h] at hcall
    rcases flush_trace_shape { w with events := [] } c w.events with hsh | ⟨tok, hsh⟩
    · rw [hsh] at hcall
      simp at hcall
      subst hcall
      exact ⟨rfl, rfl⟩
    · rw [hsh] at hcall
      simp at hcall
      rcases hcall with h1 | h1 <;> subst h1 <;> exact ⟨rfl, rfl⟩

/-- A `Flush` of a nonempty buffer makes at least one remote call, and the
first call is the append of the drained batch with the held token. -/
theorem Flush_head (w : Writer) (c : Client) (hne : w.events ≠ []) :
    (w.Flush c).2.head? =
      some (ApiCall.putLogEvents w.group w.stream w.events w.sequenceToken) := by
  unfold Writer.Flush
  rw [if_neg (by simpa using hne)]
  rcases flush_trace_shape { w with events := [] } c w.events with hsh | ⟨tok, hsh⟩ <;>
    rw [hsh] <;> rfl

/-- The success path of `Flush`: first append accepted with next token
`tok`. -/
theorem Flush_ok (w : Writer) (c : Client) (tok : Option String) (hne : w.events ≠ [])
    (hc : c.put 0 w.events w.sequenceToken = .ok tok) :
    w.Flush c = ({ w with events := [], sequenceToken := tok },
      [ApiCall.putLogEvents w.group w.stream w.events w.sequenceToken]) := by
  unfold Writer.Flush
  rw [if_neg (by simpa using hne)]
  unfold Writer.flush Writer.putLogEvents
  simp [hc]

/-! Claim theorems. -/

/-- Claim C1: when the first append attempt of a flush fails with an
`InvalidSequenceTokenException` whose message carries token T (its last
space-separated word), the flush performs exactly one retry, that retry
carries exactly T as its sequence token, on retry success the held token
becomes the retry response's token (not T), and on retry failure no further
retry is attempted and the retry's error is recorded. -/
theorem flush_staleToken_retries_exactly_once (w : Writer) (c : Client) (msg : String)
    (hne : w.events ≠ [])
    (hc : c.put 0 w.events w.sequenceToken =
      .error (.awsErr invalidSequenceTokenCode msg)) :
    (w.Flush c).2 =
      [ApiCall.putLogEvents w.group w.stream w.events w.sequenceToken,
       ApiCall.putLogEvents w.group w.stream w.events (some (lastMessagePart msg))] ∧
    (∀ tok2, c.put 1 w.events (some (lastMessagePart msg)) = .ok tok2 →
      (w.Flush c).1.sequenceToken = tok2 ∧ (w.Flush c).1.err = w.err) ∧
    (∀ e2, c.put 1 w.events (some (lastMessagePart msg)) = .error e2 →
      (w.Flush c).1.err = some e2 ∧ (w.Flush c).1.sequenceToken = w.sequenceToken) := by
  unfold Writer.Flush
  rw [if_neg (by simpa using hne)]
  unfold Writer.flush Writer.putLogEvents
  cases hp1 : c.put 1 w.events (some (lastMessagePart msg)) with
  | ok tok2 => simp [hc, hp1, codes_ne]
  | error e2 => simp [hc, hp1, codes_ne]

/-- Witness for C1 at a concrete stale-token scenario. -/
theorem flush_staleToken_retries_exactly_once_witness :
    (oneEventWriter.Flush staleClient).2 =
      [ApiCall.putLogEvents "g" "s" [{ message := "x\n", timestamp := 0 }] none,
       ApiCall.putLogEvents "g" "s" [{ message := "x\n", timestamp := 0 }] (some "TTT")] ∧
    (oneEventWriter.Flush staleClient).1.sequenceToken = some "RETRYTOK" ∧
    (oneEventWriter.Flush staleClient).1.err = none := by
  have h := flush_staleToken_retries_exactly_once oneEventWriter staleClient
    "expected sequenceToken is: TTT" (by decide) (by rfl)
  exact ⟨h.1, (h.2.1 (some "RETRYTOK") (by rfl)).1, (h.2.1 (some "RETRYTOK") (by rfl)).2⟩

/-- Claim C2: when the append attempt of a flush fails with a
`DataAlreadyAcceptedException` whose message carries token T, no retry call
is made (the trace is the single original append), the conflict is treated
as success (the error field is untouched), and the held sequence token
becomes T. -/
theorem flush_alreadyAccepted_adopts_token (w : Writer) (c : Client) (msg : String)
    (hne : w.events ≠ [])
    (hc : c.put 0 w.events w.sequenceToken =
      .error (.awsErr dataAlreadyAcceptedCode msg)) :
    (w.Flush c).2 = [ApiCall.putLogEvents w.group w.stream w.events w.sequenceToken] ∧
    (w.Flush c).1.err = w.err ∧
    (w.Flush c).1.sequenceToken = some (lastMessagePart msg) := by
  unfold Writer.Flush
  rw [if_neg (by simpa using hne)]
  unfold Writer.flush Writer.putLogEvents
  simp [hc]

/-- Witness for C2 at a concrete duplicate-submission scenario. -/
theorem flush_alreadyAccepted_adopts_token_witness :
    (oneEventWriter.Flush dupClient).2 =
      [ApiCall.putLogEvents "g" "s" [{ message := "x\n", timestamp := 0 }] none] ∧
    (oneEventWriter.Flush dupClient).1.err = none ∧
    (oneEventWriter.Flush dupClient).1.sequenceToken = some "DDD" := by
  have h := flush_alreadyAccepted_adopts_token oneEventWriter dupClient
    "already accepted with sequenceToken: DDD" (by decide) (by rfl)
  exact ⟨h.1, h.2.1, h.2.2⟩

/-- Claim C3 counterexample: the claim says the stored failure is returned
from every subsequent write until the writer is recreated, but once the
writer is additionally closed, `Write` returns `io.ErrClosedPipe` instead of
the stored transport error (the closed check precedes the error check); and
the public `Flush` has no return value at all through which the error could
be returned. -/
theorem failed_then_closed_write_returns_closedPipe :
    failedWriter.err = some (GoError.generic "transport failure") ∧
    ((failedWriter.Close failClient).1.Write clk0 ['y']).2.2.1 = some errClosedPipe ∧
    errClosedPipe ≠ GoError.generic "transport failure" := by decide

/-- Claim C3 (amended): a non-conflict append failure is stored as the
writer's error state; while the writer is not closed, every subsequent
`Write` returns exactly that stored error, consumes no bytes, and makes no
remote call, and a subsequent `Flush` of the (already drained) writer is a
no-op making no remote call.  The public `Flush` has no return value, so
the error surfaces only through `Write`, and only until the writer is
closed (then `Write` returns the closed-pipe error). -/
theorem transport_failure_sticky (w : Writer) (c c' : Client) (clock : Nat → Int)
    (b : List Char) (e : GoError)
    (hne : w.events ≠ []) (hopen : w.closed = false)
    (hc : c.put 0 w.events w.sequenceToken = .error e)
    (hnc : e.isConflict = false) :
    (w.Flush c).1.err = some e ∧
    (w.Flush c).1.Write clock b = ((w.Flush c).1, 0, some e, []) ∧
    (w.Flush c).1.Flush c' = ((w.Flush c).1, []) := by
  have herr : (w.Flush c).1.err = some e := by
    unfold Writer.Flush
    rw [if_neg (by simpa using hne)]
    unfold Writer.flush Writer.putLogEvents
    cases e with
    | generic m => simp [hc]
    | awsErr code msg =>
      simp [GoError.isConflict] at hnc
      simp [hc, hnc.1, hnc.2]
  have hcl : (w.Flush c).1.closed = false := by rw [Flush_closed]; exact hopen
  have hev : (w.Flush c).1.events = [] := Flush_drains w c
  refine ⟨herr, ?_, Flush_empty _ c' hev⟩
  unfold Writer.Write
  rw [hcl, herr]
  simp

/-- Witness for the amended C3 at a concrete transport failure. -/
theorem transport_failure_sticky_witness :
    failedWriter.err = some (GoError.generic "transport failure") ∧
    failedWriter.Write clk0 ['y'] =
      (failedWriter, 0, some (GoError.generic "transport failure"), []) ∧
    failedWriter.Flush okClient = (failedWriter, []) :=
  transport_failure_sticky oneEventWriter failClient okClient clk0 ['y']
    (GoError.generic "transport failure") (by decide) rfl rfl rfl

/-- The oversized buffer is nonempty (without evaluating its 10001 cells). -/
theorem oversizedWriter_events_ne : oversizedWriter.events ≠ [] := by
  show oversizedBatch ≠ []
  intro h
  have hlen := congrArg List.length h
  simp only [oversizedBatch, List.length_replicate, List.length_nil] at hlen
  omega

/-- Claim C4 counterexample: a drained buffer of 10001 events — above the
declared `maximumLogEventsPerPut` limit of 10000 — is submitted to the
append client in one single call. -/
theorem flush_submits_oversized_batch :
    oversizedWriter.Flush okClient =
      ({ oversizedWriter with events := [], sequenceToken := some "NEXT" },
       [ApiCall.putLogEvents "g" "s" oversizedBatch none]) ∧
    maximumLogEventsPerPut < oversizedBatch.length := by
  constructor
  · exact Flush_ok oversizedWriter okClient (some "NEXT") oversizedWriter_events_ne rfl
  · simp only [maximumLogEventsPerPut, oversizedBatch, List.length_replicate]
    omega

/-- Claim C4 (amended): the limit constants are declared but not enforced:
every append call a flush makes carries the entire drained buffer, whatever
its event count or payload size, and a flush of a nonempty buffer always
submits at least one such call. -/
theorem flush_enforces_no_batch_limits (w : Writer) (c : Client)
    (hne : w.events ≠ []) :
    (w.Flush c).2 ≠ [] ∧ ∀ call ∈ (w.Flush c).2, call.callEvents = w.events := by
  constructor
  · have h := Flush_head w c hne
    intro hnil
    rw [hnil] at h
    simp at h
  · intro call hcall
    exact (Flush_calls w c call hcall).2

/-- Witness for the amended C4 at the 10001-event buffer. -/
theorem flush_enforces_no_batch_limits_witness :
    (oversizedWriter.Flush okClient).2 ≠ [] ∧
    ∀ call ∈ (oversizedWriter.Flush okClient).2,
      call.callEvents = oversizedWriter.events :=
  flush_enforces_no_batch_limits oversizedWriter okClient oversizedWriter_events_ne

/-- Claim C5 counterexample: writing `"a\nb\nc"` and flushing hands the
append client three events, but their messages are `"a\n"`, `"b\n"`, `"c"`
— the delimiter is kept on complete lines — not `"a"`, `"b"`, `"c"`. -/
theorem write_abc_messages_keep_delimiter :
    ((((NewWriter "g" "s").Write clk0 "a\nb\nc".toList).1.Flush okClient).2.map
      fun call => call.callEvents.map InputLogEvent.message) = [["a\n", "b\n", "c"]] ∧
    ["a\n", "b\n", "c"] ≠ ["a", "b", "c"] := by decide

/-- Claim C5 (amended): writing the bytes `"a\nb\nc"` in one call followed
by an immediate flush hands the append client exactly 3 events, in order,
whose messages are `"a\n"`, `"b\n"` and `"c"` (the newline terminator is
retained on each complete line; the trailing partial line is sent as-is). -/
theorem write_abc_flush_three_events (g s : String) (clock : Nat → Int) (c : Client) :
    (((NewWriter g s).Write clock "a\nb\nc".toList).1.Flush c).2 ≠ [] ∧
    ∀ call ∈ (((NewWriter g s).Write clock "a\nb\nc".toList).1.Flush c).2,
      call.callEvents.map InputLogEvent.message = ["a\n", "b\n", "c"] := by
  have hev : (((NewWriter g s).Write clock "a\nb\nc".toList).1).events.map
      InputLogEvent.message = ["a\n", "b\n", "c"] := by
    show (((NewWriter g s).buffer clock "a\nb\nc".toList).1).events.map _ = _
    simp only [Writer.buffer, NewWriter, List.nil_append, mkEvents_messages]
    decide
  have hne : (((NewWriter g s).Write clock "a\nb\nc".toList).1).events ≠ [] := by
    intro h
    rw [h] at hev
    simp at hev
  constructor
  · have h := Flush_head _ c hne
    intro hnil
    rw [hnil] at h
    simp at h
  · intro call hcall
    rw [(Flush_calls _ c call hcall).2, hev]

/-- Witness for the amended C5 at a concrete clock and client. -/
theorem write_abc_flush_three_events_witness :
    (((NewWriter "g" "s").Write clk0 "a\nb\nc".toList).1.Flush okClient).2 ≠ [] ∧
    ∀ call ∈ (((NewWriter "g" "s").Write clk0 "a\nb\nc".toList).1.Flush okClient).2,
      call.callEvents.map InputLogEvent.message = ["a\n", "b\n", "c"] :=
  write_abc_flush_three_events "g" "s" clk0 okClient

/-- Claim C6 counterexample: a flush that runs while no sequence token is
held makes no `DescribeLogStreams` metadata lookup at all: its entire trace
is the single append call, invoked directly with the absent (`none`)
token. -/
theorem flush_nil_token_makes_no_lookup :
    oneEventWriter.sequenceToken = none ∧
    (oneEventWriter.Flush okClient).2 =
      [ApiCall.putLogEvents "g" "s" [{ message := "x\n", timestamp := 0 }] none] ∧
    (oneEventWriter.Flush okClient).2.all ApiCall.isPut = true := by decide

/-- Claim C6 (amended): a flush never queries the stream's metadata:
every remote call it makes is an append (`PutLogEvents`), and the first
append of a nonempty flush is invoked directly with the held token — the
absent (`none`) token when none is held — with no preceding lookup. -/
theorem flush_makes_no_metadata_lookup (w : Writer) (c : Client) :
    (∀ call ∈ (w.Flush c).2, call.isPut = true) ∧
    (w.events ≠ [] → (w.Flush c).2.head? =
      some (ApiCall.putLogEvents w.group w.stream w.events w.sequenceToken)) :=
  ⟨fun call hcall => (Flush_calls w c call hcall).1, fun hne => Flush_head w c hne⟩

/-- Witness for the amended C6 at a writer holding no token. -/
theorem flush_makes_no_metadata_lookup_witness :
    (∀ call ∈ (oneEventWriter.Flush okClient).2, call.isPut = true) ∧
    (oneEventWriter.Flush okClient).2.head? =
      some (ApiCall.putLogEvents "g" "s" [{ message := "x\n", timestamp := 0 }] none) := by
  have h := flush_makes_no_metadata_lookup oneEventWriter okClient
  exact ⟨h.1, h.2 (by decide)⟩

/-- Claim C7: the scheduler loop exits exactly when it observes the writer
closed, and a flush error never makes it exit: from an unclosed writer the
loop is still running after any schedule of ticks, its state being the fold
of `Flush` over the ticks (errors surface only inside that writer state). -/
theorem start_loop_exits_only_when_closed (w : Writer) (cs : List Client) :
    (∀ w', w.startRun cs = .exited w' → w'.closed = true) ∧
    (w.closed = true → w.startRun cs = .exited w) ∧
    (w.closed = false →
      w.startRun cs = .running (cs.foldl (fun wi c => (wi.Flush c).1) w)) := by
  induction cs generalizing w with
  | nil =>
    refine ⟨?_, ?_, ?_⟩
    · intro w' h
      unfold Writer.startRun at h
      by_cases hc : w.closed = true
      · rw [if_pos hc] at h
        cases h
        exact hc
      · rw [if_neg hc] at h
        cases h
    · intro hc
      unfold Writer.startRun
      rw [if_pos hc]
    · intro hc
      unfold Writer.startRun
      rw [if_neg (by simp [hc])]
      rfl
  | cons c cs ih =>
    refine ⟨?_, ?_, ?_⟩
    · intro w' h
      unfold Writer.startRun at h
      by_cases hc : w.closed = true
      · rw [if_pos hc] at h
        cases h
        exact hc
      · rw [if_neg hc] at h
        exact (ih (w.Flush c).1).1 w' h
    · intro hc
      unfold Writer.startRun
      rw [if_pos hc]
    · intro hc
      unfold Writer.startRun
      rw [if_neg (by simp [hc])]
      rw [List.foldl_cons]
      exact (ih (w.Flush c).1).2.2 (by rw [Flush_closed]; exact hc)

/-- Witness for C7: two ticks whose flushes both fail leave the loop
running, with the failure surfaced only in the writer's error state. -/
theorem start_loop_exits_only_when_closed_witness :
    oneEventWriter.startRun [failClient, failClient] =
      .running (([failClient, failClient]).foldl (fun wi c => (wi.Flush c).1) oneEventWriter) ∧
    (([failClient, failClient]).foldl (fun wi c => (wi.Flush c).1) oneEventWriter).err =
      some (GoError.generic "transport failure") :=
  ⟨(start_loop_exits_only_when_closed oneEventWriter [failClient, failClient]).2.2 rfl,
   by decide⟩

/-- A `Write` on an open, unfailed writer only appends the new events. -/
theorem Write_open (w : Writer) (clock : Nat → Int) (b : List Char)
    (hopen : w.closed = false) (herr : w.err = none) :
    (w.Write clock b).1 =
      { w with events := w.events ++ mkEvents clock w.events.length (chunksNl b) } := by
  unfold Writer.Write Writer.buffer
  rw [hopen, herr]
  simp

/-- Two consecutive `Write` calls whose chunkings compose produce the same
state as one `Write` of the concatenation. -/
theorem Write_Write_open (w : Writer) (clock : Nat → Int) (b1 b2 : List Char)
    (hopen : w.closed = false) (herr : w.err = none)
    (h : chunksNl (b1 ++ b2) = chunksNl b1 ++ chunksNl b2) :
    ((w.Write clock b1).1.Write clock b2).1 = (w.Write clock (b1 ++ b2)).1 := by
  have h1 := Write_open w clock b1 hopen herr
  have hopen' : ((w.Write clock b1).1).closed = false := by rw [h1]; exact hopen
  have herr' : ((w.Write clock b1).1).err = none := by rw [h1]; exact herr
  rw [Write_open _ clock b2 hopen' herr', h1, Write_open w clock (b1 ++ b2) hopen herr]
  simp only [List.length_append, mkEvents_length, h, mkEvents_append, List.append_assoc]

/-- Claim C8 counterexample: the input `"a\nbc"`, which contains an embedded
line break, split at a point inside its second line (`"a\nb"` then `"c"`),
buffers three events with messages `"a\n"`, `"b"`, `"c"`, while the single
call buffers two events `"a\n"`, `"bc"` — not even the multisets agree. -/
theorem split_mid_line_changes_events :
    "a\nb".toList ++ "c".toList = "a\nbc".toList ∧
    (writeAll (NewWriter "g" "s") clk0 ["a\nb".toList, "c".toList]).events.map
      InputLogEvent.message = ["a\n", "b", "c"] ∧
    (((NewWriter "g" "s").Write clk0 "a\nbc".toList).1).events.map
      InputLogEvent.message = ["a\n", "bc"] ∧
    ¬ List.Perm ["a\n", "b", "c"] ["a\n", "bc"] := by decide

/-- Claim C8 (amended): splitting an input across consecutive `Write` calls
leaves the buffered events unchanged exactly when every call boundary falls
immediately after a newline byte; a boundary inside a line splits that line
into separate events (no cross-call reassembly). -/
theorem write_line_boundary_independent (w : Writer) (clock : Nat → Int)
    (bs : List (List Char)) (hopen : w.closed = false) (herr : w.err = none)
    (hsplit : ∀ b ∈ bs.dropLast, b.getLast? = some '\n') :
    writeAll w clock bs = (w.Write clock bs.flatten).1 := by
  induction bs generalizing w with
  | nil =>
    rw [writeAll, List.flatten_nil, Write_open w clock [] hopen herr]
    show w = { w with events := w.events ++ mkEvents clock w.events.length [] }
    simp [mkEvents]
  | cons b bs ih =>
    rw [writeAll]
    cases bs with
    | nil =>
      rw [writeAll]
      have hj : List.flatten [b] = b ++ [] := rfl
      rw [hj, List.append_nil]
    | cons b2 bs2 =>
      have hb : b.getLast? = some '\n' := by
        apply hsplit
        rw [List.dropLast_cons_of_ne_nil (by simp)]
        simp
      have hopen' : ((w.Write clock b).1).closed = false := by
        rw [Write_open w clock b hopen herr]
        exact hopen
      have herr' : ((w.Write clock b).1).err = none := by
        rw [Write_open w clock b hopen herr]
        exact herr
      have hsplit' : ∀ x ∈ (b2 :: bs2).dropLast, x.getLast? = some '\n' := by
        intro x hx
        apply hsplit
        rw [List.dropLast_cons_of_ne_nil (by simp)]
        exact List.mem_cons_of_mem b hx
      rw [ih _ hopen' herr' hsplit', List.flatten_cons]
      exact Write_Write_open w clock b (List.flatten (b2 :: bs2)) hopen herr
        (chunksNl_append b _ hb)

/-- Witness for the amended C8: the same two lines written in one call and
in two line-aligned calls yield identical writer states. -/
theorem write_line_boundary_independent_witness :
    writeAll (NewWriter "g" "s") clk0 ["a\n".toList, "b".toList] =
      ((NewWriter "g" "s").Write clk0 (List.flatten ["a\n".toList, "b".toList])).1 :=
  write_line_boundary_independent (NewWriter "g" "s") clk0
    ["a\n".toList, "b".toList] rfl rfl (by decide)

/-- Claim C9 counterexample: the input `"\n"` — a line consisting only of
its newline terminator — is not dropped: it adds one event whose message is
`"\n"` to the buffer. -/
theorem newline_only_write_adds_event :
    (((NewWriter "g" "s").Write clk0 ['\n']).1).events.map InputLogEvent.message
      = ["\n"] ∧
    (["\n"] : List String) ≠ [] := by decide

/-- Claim C9 (amended): newline-only lines are not dropped: a write of `n`
bare newlines appends exactly `n` events, each with message `"\n"` (for
`n = 0`, the empty write, nothing is added — the only input producing no
event). -/
theorem write_newline_lines_not_dropped (w : Writer) (clock : Nat → Int) (n : Nat)
    (hopen : w.closed = false) (herr : w.err = none) :
    ((w.Write clock (List.replicate n '\n')).1).events.map InputLogEvent.message
      = w.events.map InputLogEvent.message ++ List.replicate n "\n" := by
  rw [Write_open w clock _ hopen herr]
  simp only [List.map_append, mkEvents_messages, chunksNl_newlines, List.map_replicate]

/-- Witness for the amended C9 at two bare newlines. -/
theorem write_newline_lines_not_dropped_witness :
    (((NewWriter "g" "s").Write clk0 (List.replicate 2 '\n')).1).events.map
      InputLogEvent.message =
      (NewWriter "g" "s").events.map InputLogEvent.message ++ List.replicate 2 "\n" :=
  write_newline_lines_not_dropped (NewWriter "g" "s") clk0 2 rfl rfl

/-- Claim C10: on an open, unfailed writer, `Write` consumes every byte
(returns `len(b)`), returns no error, and makes no remote call. -/
theorem write_accepts_all_bytes (w : Writer) (clock : Nat → Int) (b : List Char)
    (hopen : w.closed = false) (herr : w.err = none) :
    (w.Write clock b).2.1 = b.length ∧ (w.Write clock b).2.2.1 = none ∧
    (w.Write clock b).2.2.2 = [] := by
  unfold Writer.Write Writer.buffer
  rw [hopen, herr]
  simp [chunksNl_length_sum]

/-- Witness for C10 at a concrete multi-line input. -/
theorem write_accepts_all_bytes_witness :
    ((NewWriter "g" "s").Write clk0 "a\nb\nc".toList).2.1 = "a\nb\nc".toList.length ∧
    ((NewWriter "g" "s").Write clk0 "a\nb\nc".toList).2.2.1 = none ∧
    ((NewWriter "g" "s").Write clk0 "a\nb\nc".toList).2.2.2 = [] :=
  write_accepts_all_bytes (NewWriter "g" "s") clk0 "a\nb\nc".toList rfl rfl

end Cloudwatch
